import Mathlib

/-!
Shallow embedding of the `learning-to-fly` repository's two Rust crates:
`libs/neural-network` (feedforward network with randomized construction)
and `libs/genetic-algorithm` (an unimplemented evolution step).

Floating-point (`f32`) values are modelled as exact rationals `ℚ`; the
`rand` crate's seeded random source is modelled as a stream of unit
samples together with a count of how many have been consumed, threaded
explicitly through the constructors exactly as the Rust code threads
`&mut dyn RngCore`.  Panics (`assert!`, `assert_eq!`, `todo!`) are
modelled as `Except` errors.
-/

instance {ε α : Type} [DecidableEq ε] [DecidableEq α] : DecidableEq (Except ε α) := fun x y =>
  match x, y with
  | .ok a, .ok b =>
    if h : a = b then .isTrue (h ▸ rfl) else .isFalse (fun he => h (Except.ok.inj he))
  | .error a, .error b =>
    if h : a = b then .isTrue (h ▸ rfl) else .isFalse (fun he => h (Except.error.inj he))
  | .ok _, .error _ => .isFalse (fun he => Except.noConfusion he)
  | .error _, .ok _ => .isFalse (fun he => Except.noConfusion he)

/-- The two fatal failure kinds of the neural-network core:
`assert_eq!(inputs.len(), self.weights.len())` in `Neuron::propagate`
and `assert!(layers.len() > 1)` in `Network::random`. -/
inductive NNError where
  | dimensionMismatch
  | invalidTopology
deriving DecidableEq, Repr

/-- `struct Neuron { bias: f32, weights: Vec<f32> }` -/
structure Neuron where
  bias : ℚ
  weights : List ℚ
deriving DecidableEq, Repr

/-- `struct Layer { neurons: Vec<Neuron> }` -/
structure Layer where
  neurons : List Neuron
deriving DecidableEq, Repr

/-- `struct Network { layers: Vec<Layer> }` -/
structure Network where
  layers : List Layer
deriving DecidableEq, Repr

/-- `pub struct LayerTopology { pub neurons: usize }` -/
structure LayerTopology where
  neurons : Nat
deriving DecidableEq, Repr

/-- The seeded random source (`rand::RngCore` plus the `gen_range`
distribution machinery): an infinite stream of unit samples in `[0, 1]`
and the number of samples consumed so far. -/
structure RngState where
  stream : Nat → ℚ
  consumed : Nat

/-- `rng.gen_range(lo..=hi)` for floats: consumes one unit sample `u`
from the stream and maps it affinely onto `[lo, hi]` (inclusive at both
ends when `u` ranges over `[0, 1]`), advancing the source by one draw. -/
def RngState.genRange (self : RngState) (lo hi : ℚ) : ℚ × RngState :=
  (lo + self.stream self.consumed * (hi - lo), ⟨self.stream, self.consumed + 1⟩)

/-- The rectified weighted sum computed by `Neuron::propagate` once the
length assertion has passed: `inputs.iter().zip(&self.weights).map(|(i, w)| i * w).sum::<f32>()`
(a left fold from `0`) plus `bias`, clamped with `.max(0.0)`. -/
def Neuron.output (self : Neuron) (inputs : List ℚ) : ℚ :=
  max (self.bias + ((inputs.zip self.weights).map (fun p => p.1 * p.2)).foldl (· + ·) 0) 0

/-- `Neuron::propagate`: asserts `inputs.len() == self.weights.len()`,
then returns the rectified weighted sum. -/
def Neuron.propagate (self : Neuron) (inputs : List ℚ) : Except NNError ℚ :=
  if inputs.length = self.weights.length then
    .ok (self.output inputs)
  else
    .error .dimensionMismatch

/-- `Neuron::random`: draws the bias, then `output_size` weights, each
via `rng.gen_range(-1.0..=1.0)`, in that order. -/
def Neuron.random (rng : RngState) (output_size : Nat) : Neuron × RngState :=
  let br := rng.genRange (-1) 1
  let ws := drawWeights br.2 output_size
  ({ bias := br.1, weights := ws.1 }, ws.2)
where
  /-- `(0..output_size).map(|_| rng.gen_range(-1.0..=1.0)).collect()`:
  index-order weight draws threading the source. -/
  drawWeights : RngState → Nat → List ℚ × RngState
    | rng, 0 => ([], rng)
    | rng, n + 1 =>
      let x := rng.genRange (-1) 1
      let xs := drawWeights x.2 n
      (x.1 :: xs.1, xs.2)

/-- `Layer::propagate`: `self.neurons.iter().map(|neuron| neuron.propagate(&inputs)).collect()`;
a neuron's length-assertion failure aborts the whole call. -/
def Layer.propagate (self : Layer) (inputs : List ℚ) : Except NNError (List ℚ) :=
  self.neurons.mapM (fun neuron => neuron.propagate inputs)

/-- `Layer::random`: constructs `output_neurons` neurons in order, each
via `Neuron::random(rng, input_neurons)`, threading the source. -/
def Layer.random (rng : RngState) (input_neurons output_neurons : Nat) : Layer × RngState :=
  let ns := buildNeurons rng output_neurons
  ({ neurons := ns.1 }, ns.2)
where
  /-- `(0..output_neurons).map(|_| Neuron::random(rng, input_neurons)).collect()`. -/
  buildNeurons : RngState → Nat → List Neuron × RngState
    | rng, 0 => ([], rng)
    | rng, n + 1 =>
      let hd := Neuron.random rng input_neurons
      let tl := buildNeurons hd.2 n
      (hd.1 :: tl.1, tl.2)

/-- `layers.windows(2).map(|layers| Layer::random(rng, layers[0].neurons, layers[1].neurons)).collect()`:
one `Layer` per adjacent pair of topology entries, in order, threading
the source. -/
def buildLayers (rng : RngState) : List LayerTopology → List Layer × RngState
  | a :: b :: rest =>
    let hd := Layer.random rng a.neurons b.neurons
    let tl := buildLayers hd.2 (b :: rest)
    (hd.1 :: tl.1, tl.2)
  | _ => ([], rng)

/-- `Network::random`: asserts `layers.len() > 1`, then builds one layer
per adjacent topology pair. -/
def Network.random (rng : RngState) (layers : List LayerTopology) :
    Except NNError (Network × RngState) :=
  if layers.length > 1 then
    let ls := buildLayers rng layers
    .ok ({ layers := ls.1 }, ls.2)
  else
    .error .invalidTopology

/-- `Network::propagate`: `self.layers.iter().fold(inputs, |inputs, layer| layer.propagate(&inputs))`. -/
def Network.propagate (self : Network) (inputs : List ℚ) : Except NNError (List ℚ) :=
  self.layers.foldlM (fun inputs layer => layer.propagate inputs) inputs

/-- The two fatal stops of `GeneticAlgorithm::evolve`:
`assert!(!population.is_empty())` and the `todo!()` stub. -/
inductive GAPanic where
  | assertionFailed
  | todoUnimplemented
deriving DecidableEq, Repr

/-- `pub struct GeneticAlgorithm;` -/
structure GeneticAlgorithm where
deriving DecidableEq, Repr

/-- `GeneticAlgorithm::evolve`: asserts the population is non-empty, then
maps `todo!()` over `0..population.len()` and collects. -/
def GeneticAlgorithm.evolve {α : Type} (_self : GeneticAlgorithm) (population : List α) :
    Except GAPanic (List α) :=
  if population.isEmpty then
    .error .assertionFailed
  else
    (List.range population.length).mapM (fun _ => .error .todoUnimplemented)

/-- All layers of a network are compatible with input width `w`: each
layer's neurons expect exactly the width produced by the previous layer.
This is the `Network` invariant stated in the data model. -/
def chainOK : Nat → List Layer → Bool
  | _, [] => true
  | w, l :: ls => l.neurons.all (fun n => n.weights.length == w) && chainOK l.neurons.length ls

/-- The output width of a compatible layer chain fed with width `w`. -/
def outWidth : Nat → List Layer → Nat
  | w, [] => w
  | _, l :: ls => outWidth l.neurons.length ls

theorem except_bind_error {ε α β : Type} (e : ε) (f : α → Except ε β) :
    ((Except.error e : Except ε α) >>= f) = .error e := rfl

theorem except_bind_ok {ε α β : Type} (a : α) (f : α → Except ε β) :
    ((Except.ok a : Except ε α) >>= f) = f a := rfl

theorem except_pure {ε α : Type} (a : α) : (pure a : Except ε α) = .ok a := rfl

theorem mapM_ok_of_forall {ε α β : Type} (f : α → Except ε β) (g : α → β) :
    ∀ xs : List α, (∀ a ∈ xs, f a = .ok (g a)) → xs.mapM f = .ok (xs.map g)
  | [], _ => by rw [List.mapM_nil]; rfl
  | x :: xs, h => by
    have hx := h x (by simp)
    have hxs := mapM_ok_of_forall f g xs (fun a ha => h a (by simp [ha]))
    rw [List.mapM_cons, hx, hxs]
    rfl

theorem mapM_isOk_iff {ε α β : Type} (f : α → Except ε β) :
    ∀ xs : List α, (∃ ys, xs.mapM f = .ok ys) ↔ ∀ a ∈ xs, ∃ b, f a = .ok b
  | [] => by
    rw [List.mapM_nil]
    simp only [List.not_mem_nil, false_implies, implies_true, iff_true]
    exact ⟨[], rfl⟩
  | x :: xs => by
    rw [List.mapM_cons]
    constructor
    · rintro ⟨ys, hys⟩
      cases hfx : f x with
      | error e =>
        simp only [hfx, except_bind_error] at hys
        exact Except.noConfusion hys
      | ok b =>
        simp only [hfx, except_bind_ok] at hys
        cases hrest : xs.mapM f with
        | error e =>
          simp only [hrest, except_bind_error] at hys
          exact Except.noConfusion hys
        | ok bs =>
          intro a ha
          rcases List.mem_cons.mp ha with rfl | hmem
          · exact ⟨b, hfx⟩
          · exact (mapM_isOk_iff f xs).mp ⟨bs, hrest⟩ a hmem
    · intro h
      obtain ⟨b, hb⟩ := h x (by simp)
      obtain ⟨bs, hbs⟩ := (mapM_isOk_iff f xs).mpr (fun a ha => h a (by simp [ha]))
      refine ⟨b :: bs, ?_⟩
      simp only [hb, except_bind_ok, hbs, except_pure]

theorem mapM_ne_error {ε α β : Type} (f : α → Except ε β) (e : ε)
    (hf : ∀ a, f a ≠ .error e) :
    ∀ xs : List α, xs.mapM f ≠ .error e
  | [] => by rw [List.mapM_nil]; exact fun h => Except.noConfusion h
  | x :: xs => by
    rw [List.mapM_cons]
    cases hfx : f x with
    | error e' =>
      simp only [except_bind_error]
      intro h
      have he : e' = e := Except.error.inj h
      exact hf x (by rw [hfx, he])
    | ok b =>
      simp only [except_bind_ok]
      cases hrest : xs.mapM f with
      | error e' =>
        simp only [except_bind_error]
        intro h
        have he : e' = e := Except.error.inj h
        exact mapM_ne_error f e hf xs (by rw [hrest, he])
      | ok bs =>
        simp only [except_bind_ok, except_pure]
        exact fun h => Except.noConfusion h

theorem mapM_const_error {ε α β : Type} (e : ε) :
    ∀ xs : List α, xs ≠ [] → xs.mapM (fun _ => (.error e : Except ε β)) = .error e
  | [], h => absurd rfl h
  | _ :: _, _ => by rw [List.mapM_cons]; rfl

theorem Layer.propagate_ok (l : Layer) (v : List ℚ)
    (h : ∀ n ∈ l.neurons, n.weights.length = v.length) :
    l.propagate v = .ok (l.neurons.map (fun n => n.output v)) := by
  apply mapM_ok_of_forall
  intro n hn
  simp [Neuron.propagate, (h n hn).symm]

theorem Layer.propagate_isOk_iff (l : Layer) (v : List ℚ) :
    (∃ out, l.propagate v = .ok out) ↔ ∀ n ∈ l.neurons, v.length = n.weights.length := by
  rw [Layer.propagate, mapM_isOk_iff]
  constructor
  · intro h n hn
    obtain ⟨b, hb⟩ := h n hn
    rw [Neuron.propagate] at hb
    by_cases hl : v.length = n.weights.length
    · exact hl
    · rw [if_neg hl] at hb; exact Except.noConfusion hb
  · intro h n hn
    exact ⟨n.output v, by rw [Neuron.propagate, if_pos (h n hn)]⟩

theorem Layer.propagate_ne_invalidTopology (l : Layer) (v : List ℚ) :
    l.propagate v ≠ .error .invalidTopology := by
  apply mapM_ne_error
  intro n
  rw [Neuron.propagate]
  by_cases hl : v.length = n.weights.length
  · rw [if_pos hl]; exact fun h => Except.noConfusion h
  · rw [if_neg hl]
    intro h
    exact NNError.noConfusion (Except.error.inj h)

theorem foldlM_propagate_ne_invalidTopology :
    ∀ (ls : List Layer) (v : List ℚ),
      ls.foldlM (fun inputs layer => Layer.propagate layer inputs) v ≠ .error .invalidTopology
  | [], v => by rw [List.foldlM_nil]; exact fun h => Except.noConfusion h
  | l :: ls, v => by
    rw [List.foldlM_cons]
    cases hl : l.propagate v with
    | error e =>
      simp only [except_bind_error]
      intro h
      have he : e = NNError.invalidTopology := Except.error.inj h
      exact Layer.propagate_ne_invalidTopology l v (by rw [hl, he])
    | ok v' =>
      simp only [except_bind_ok]
      exact foldlM_propagate_ne_invalidTopology ls v'

theorem foldlM_propagate_ok_of_chain :
    ∀ (ls : List Layer) (w : Nat) (v : List ℚ), chainOK w ls = true → v.length = w →
      ∃ out, ls.foldlM (fun inputs layer => Layer.propagate layer inputs) v = .ok out ∧
        out.length = outWidth w ls
  | [], w, v, _, hv => by
    refine ⟨v, ?_, hv⟩
    rw [List.foldlM_nil]
    rfl
  | l :: ls, w, v, hchain, hv => by
    rw [chainOK, Bool.and_eq_true, List.all_eq_true] at hchain
    obtain ⟨hall, hrest⟩ := hchain
    have hlens : ∀ n ∈ l.neurons, n.weights.length = v.length := by
      intro n hn
      have hw : n.weights.length = w := by simpa using hall n hn
      rw [hv, hw]
    have hok := Layer.propagate_ok l v hlens
    obtain ⟨out, hout, hlen⟩ :=
      foldlM_propagate_ok_of_chain ls l.neurons.length
        (l.neurons.map (fun n => n.output v)) hrest (by simp)
    refine ⟨out, ?_, hlen⟩
    rw [List.foldlM_cons]
    simp only [hok, except_bind_ok]
    exact hout

theorem drawWeights_spec : ∀ (n : Nat) (rng : RngState),
    (Neuron.random.drawWeights rng n).1.length = n ∧
    (Neuron.random.drawWeights rng n).2.stream = rng.stream ∧
    (Neuron.random.drawWeights rng n).2.consumed = rng.consumed + n ∧
    ∀ j, j < n → (Neuron.random.drawWeights rng n).1[j]? =
      some (-1 + rng.stream (rng.consumed + j) * 2)
  | 0, rng => by
    refine ⟨rfl, rfl, rfl, ?_⟩
    intro j hj
    exact absurd hj (Nat.not_lt_zero j)
  | n + 1, rng => by
    obtain ⟨ih1, ih2, ih3, ih4⟩ := drawWeights_spec n ⟨rng.stream, rng.consumed + 1⟩
    dsimp only at ih2 ih3 ih4
    have hunfold : Neuron.random.drawWeights rng (n + 1) =
        ((-1 + rng.stream rng.consumed * (1 - (-1))) ::
          (Neuron.random.drawWeights ⟨rng.stream, rng.consumed + 1⟩ n).1,
         (Neuron.random.drawWeights ⟨rng.stream, rng.consumed + 1⟩ n).2) := rfl
    rw [hunfold]
    dsimp only
    refine ⟨by simp [ih1], ih2, by rw [ih3]; omega, ?_⟩
    intro j hj
    cases j with
    | zero =>
      simp only [List.getElem?_cons_zero, Nat.add_zero, Option.some.injEq]
      norm_num
    | succ k =>
      simp only [List.getElem?_cons_succ]
      rw [ih4 k (by omega)]
      have harith : rng.consumed + 1 + k = rng.consumed + (k + 1) := by omega
      rw [harith]

theorem neuronRandom_spec (rng : RngState) (output_size : Nat) :
    (Neuron.random rng output_size).1.bias = -1 + rng.stream rng.consumed * 2 ∧
    (Neuron.random rng output_size).1.weights.length = output_size ∧
    (∀ j, j < output_size → (Neuron.random rng output_size).1.weights[j]? =
      some (-1 + rng.stream (rng.consumed + 1 + j) * 2)) ∧
    (Neuron.random rng output_size).2.stream = rng.stream ∧
    (Neuron.random rng output_size).2.consumed = rng.consumed + (1 + output_size) := by
  obtain ⟨h1, h2, h3, h4⟩ := drawWeights_spec output_size ⟨rng.stream, rng.consumed + 1⟩
  dsimp only at h2 h3 h4
  have hunfold : Neuron.random rng output_size =
      ({ bias := -1 + rng.stream rng.consumed * (1 - (-1)),
         weights := (Neuron.random.drawWeights ⟨rng.stream, rng.consumed + 1⟩ output_size).1 },
       (Neuron.random.drawWeights ⟨rng.stream, rng.consumed + 1⟩ output_size).2) := rfl
  rw [hunfold]
  dsimp only
  refine ⟨by norm_num, h1, ?_, h2, by rw [h3]; omega⟩
  intro j hj
  exact h4 j hj

theorem buildNeurons_spec (input_neurons : Nat) : ∀ (k : Nat) (rng : RngState),
    (Layer.random.buildNeurons input_neurons rng k).1.length = k ∧
    (Layer.random.buildNeurons input_neurons rng k).2.stream = rng.stream ∧
    (Layer.random.buildNeurons input_neurons rng k).2.consumed =
      rng.consumed + k * (1 + input_neurons) ∧
    ∀ j, j < k → (Layer.random.buildNeurons input_neurons rng k).1[j]? =
      some ((Neuron.random ⟨rng.stream, rng.consumed + j * (1 + input_neurons)⟩
        input_neurons).1)
  | 0, rng => by
    refine ⟨rfl, rfl, (by omega : rng.consumed = rng.consumed + 0 * (1 + input_neurons)), ?_⟩
    intro j hj
    exact absurd hj (Nat.not_lt_zero j)
  | k + 1, rng => by
    obtain ⟨nh1, nh2, nh3, nh4, nh5⟩ := neuronRandom_spec rng input_neurons
    obtain ⟨ih1, ih2, ih3, ih4⟩ := buildNeurons_spec input_neurons k
      (Neuron.random rng input_neurons).2
    have hunfold : Layer.random.buildNeurons input_neurons rng (k + 1) =
        ((Neuron.random rng input_neurons).1 ::
          (Layer.random.buildNeurons input_neurons (Neuron.random rng input_neurons).2 k).1,
         (Layer.random.buildNeurons input_neurons (Neuron.random rng input_neurons).2 k).2) :=
      rfl
    rw [hunfold]
    dsimp only
    refine ⟨by simp [ih1], by rw [ih2, nh4], by rw [ih3, nh5]; ring, ?_⟩
    intro j hj
    cases j with
    | zero =>
      simp only [List.getElem?_cons_zero, Option.some.injEq]
      have harg : (⟨rng.stream, rng.consumed + 0 * (1 + input_neurons)⟩ : RngState) = rng := by
        simp
      rw [harg]
    | succ m =>
      simp only [List.getElem?_cons_succ]
      rw [ih4 m (by omega), nh4, nh5]
      have harith : rng.consumed + (1 + input_neurons) + m * (1 + input_neurons) =
          rng.consumed + (m + 1) * (1 + input_neurons) := by ring
      rw [harith]

theorem layerRandom_spec (rng : RngState) (input_neurons output_neurons : Nat) :
    (Layer.random rng input_neurons output_neurons).1.neurons.length = output_neurons ∧
    (Layer.random rng input_neurons output_neurons).2.stream = rng.stream ∧
    (Layer.random rng input_neurons output_neurons).2.consumed =
      rng.consumed + output_neurons * (1 + input_neurons) ∧
    (∀ j, j < output_neurons →
      (Layer.random rng input_neurons output_neurons).1.neurons[j]? =
        some ((Neuron.random ⟨rng.stream, rng.consumed + j * (1 + input_neurons)⟩
          input_neurons).1)) ∧
    ∀ n ∈ (Layer.random rng input_neurons output_neurons).1.neurons,
      n.weights.length = input_neurons := by
  obtain ⟨h1, h2, h3, h4⟩ := buildNeurons_spec input_neurons output_neurons rng
  refine ⟨h1, h2, h3, h4, ?_⟩
  intro n hn
  have hn' : n ∈ (Layer.random.buildNeurons input_neurons rng output_neurons).1 := hn
  obtain ⟨j, hj⟩ := List.mem_iff_getElem?.mp hn'
  have hjlt : j < output_neurons := by
    obtain ⟨hlt, _⟩ := List.getElem?_eq_some.mp hj
    omega
  rw [h4 j hjlt] at hj
  obtain ⟨_, hw, _, _, _⟩ := neuronRandom_spec
    (⟨rng.stream, rng.consumed + j * (1 + input_neurons)⟩ : RngState) input_neurons
  rw [← Option.some.inj hj]
  exact hw

theorem buildLayers_length : ∀ (t : List LayerTopology) (rng : RngState),
    (buildLayers rng t).1.length = t.length - 1
  | [], _ => rfl
  | [_], _ => rfl
  | a :: b :: rest, rng => by
    have hunfold : buildLayers rng (a :: b :: rest) =
        ((Layer.random rng a.neurons b.neurons).1 ::
          (buildLayers (Layer.random rng a.neurons b.neurons).2 (b :: rest)).1,
         (buildLayers (Layer.random rng a.neurons b.neurons).2 (b :: rest)).2) := rfl
    rw [hunfold]
    dsimp only
    simp only [List.length_cons,
      buildLayers_length (b :: rest) (Layer.random rng a.neurons b.neurons).2]
    omega

theorem buildLayers_getElem :
    ∀ (t : List LayerTopology) (rng : RngState) (i : Nat) (a b : LayerTopology),
      t[i]? = some a → t[i + 1]? = some b →
      (buildLayers rng t).1[i]? =
        some ((Layer.random ((buildLayers rng (t.take (i + 1))).2) a.neurons b.neurons).1)
  | [], _, i, _, _, ha, _ => by simp at ha
  | [x], _, 0, _, _, _, hb => by simp at hb
  | [x], _, i + 1, _, _, ha, _ => by simp at ha
  | x :: y :: ys, rng, 0, a, b, ha, hb => by
    simp only [List.getElem?_cons_zero, Option.some.injEq] at ha
    have hb' : y = b := by simpa using hb
    subst ha
    subst hb'
    have hunfold : buildLayers rng (x :: y :: ys) =
        ((Layer.random rng x.neurons y.neurons).1 ::
          (buildLayers (Layer.random rng x.neurons y.neurons).2 (y :: ys)).1,
         (buildLayers (Layer.random rng x.neurons y.neurons).2 (y :: ys)).2) := rfl
    rw [hunfold]
    simp only [List.getElem?_cons_zero, List.take_succ_cons, List.take_zero]
    rfl
  | x :: y :: ys, rng, i + 1, a, b, ha, hb => by
    have ha' : (y :: ys)[i]? = some a := by simpa using ha
    have hb' : (y :: ys)[i + 1]? = some b := by simpa using hb
    have hunfold : buildLayers rng (x :: y :: ys) =
        ((Layer.random rng x.neurons y.neurons).1 ::
          (buildLayers (Layer.random rng x.neurons y.neurons).2 (y :: ys)).1,
         (buildLayers (Layer.random rng x.neurons y.neurons).2 (y :: ys)).2) := rfl
    rw [hunfold]
    simp only [List.getElem?_cons_succ]
    rw [buildLayers_getElem (y :: ys) (Layer.random rng x.neurons y.neurons).2 i a b ha' hb']
    have htake2 : buildLayers rng (x :: (y :: ys).take (i + 1)) =
        ((Layer.random rng x.neurons y.neurons).1 ::
          (buildLayers (Layer.random rng x.neurons y.neurons).2 ((y :: ys).take (i + 1))).1,
         (buildLayers (Layer.random rng x.neurons y.neurons).2 ((y :: ys).take (i + 1))).2) := by
      rw [show (y :: ys).take (i + 1) = y :: ys.take i from rfl]
      rfl
    rw [show ((x :: y :: ys).take (i + 1 + 1)) = x :: (y :: ys).take (i + 1) from rfl, htake2]

theorem outWidth_getLast :
    ∀ (ls : List Layer) (w : Nat) (last : Layer), ls.getLast? = some last →
      outWidth w ls = last.neurons.length
  | [], _, _, h => by simp at h
  | [l], _, last, h => by
    simp at h
    subst h
    rfl
  | l :: l' :: ls, w, last, h => by
    rw [outWidth]
    exact outWidth_getLast (l' :: ls) l.neurons.length last (by simpa using h)

/-- C1: for every Neuron with bias `b` and weights `w` and every input
vector `v` with `v.length = w.length`, `Neuron.propagate v` returns
`max(0, b + sum)` where the sum is the left fold, in ascending index
order, accumulating `v[i] * w[i]` over the pairwise zip of inputs and
weights. -/
theorem claim_C1 (n : Neuron) (v : List ℚ) (h : v.length = n.weights.length) :
    n.propagate v =
      .ok (max 0 (n.bias + (v.zip n.weights).foldl (fun acc p => acc + p.1 * p.2) 0)) := by
  rw [Neuron.propagate, if_pos h, Neuron.output, List.foldl_map, max_comm]

theorem claim_C1_witness :
    (Neuron.mk (1/2) [-(3/10), 8/10]).propagate [1/2, 1] =
      .ok (max 0 ((1/2 : ℚ) +
        ([(1/2 : ℚ), 1].zip [-(3/10), 8/10]).foldl (fun acc p => acc + p.1 * p.2) 0)) :=
  claim_C1 (Neuron.mk (1/2) [-(3/10), 8/10]) [1/2, 1] rfl

/-- C6 counterexample: the claimed output value 0.65 is wrong — for the
Neuron with bias 0.5 and weights [-0.3, 0.8], `propagate [0.5, 1.0]`
does not return 0.65. -/
theorem claim_C6_counterexample :
    (Neuron.mk (1/2) [-(3/10), 8/10]).propagate [1/2, 1] ≠ .ok (13/20) := by
  norm_num [Neuron.propagate, Neuron.output]

/-- C6 amended: for the Neuron with bias 0.5 and weights [-0.3, 0.8],
`propagate [0.5, 1.0]` equals `(-0.3*0.5) + (0.8*1.0) + 0.5`, which
equals 1.15 (not 0.65 as the claim had it). -/
theorem claim_C6_amended :
    (Neuron.mk (1/2) [-(3/10), 8/10]).propagate [1/2, 1] =
      .ok ((-(3/10)) * (1/2) + (8/10) * 1 + 1/2) ∧
    ((-(3/10)) * (1/2) + (8/10) * 1 + 1/2 : ℚ) = 23/20 := by
  constructor
  · norm_num [Neuron.propagate, Neuron.output]
  · norm_num

/-- C7: for every Layer with `k` Neurons and every input vector of the
Layer's input width, `Layer.propagate` applies `Neuron.propagate`
independently to each Neuron in sequence order; the output has length
`k` and element `j` is exactly neuron `j`'s propagated value. -/
theorem claim_C7 (l : Layer) (v : List ℚ)
    (h : ∀ n ∈ l.neurons, n.weights.length = v.length) :
    ∃ out, l.propagate v = .ok out ∧ out.length = l.neurons.length ∧
      ∀ j, (hj : j < l.neurons.length) →
        ∃ nr, l.neurons[j]? = some nr ∧ nr.propagate v = .ok (nr.output v) ∧
          out[j]? = some (nr.output v) := by
  refine ⟨l.neurons.map (fun n => n.output v), Layer.propagate_ok l v h, by simp, ?_⟩
  intro j hj
  refine ⟨l.neurons[j], List.getElem?_eq_getElem hj, ?_, ?_⟩
  · rw [Neuron.propagate, if_pos (h _ (List.getElem_mem hj)).symm]
  · rw [List.getElem?_map, List.getElem?_eq_getElem hj]
    rfl

theorem claim_C7_witness :
    ∃ out, (Layer.mk [Neuron.mk 0 [1], Neuron.mk 1 [2]]).propagate [5] = .ok out ∧
      out.length = (Layer.mk [Neuron.mk 0 [1], Neuron.mk 1 [2]]).neurons.length ∧
      ∀ j, (hj : j < (Layer.mk [Neuron.mk 0 [1], Neuron.mk 1 [2]]).neurons.length) →
        ∃ nr, (Layer.mk [Neuron.mk 0 [1], Neuron.mk 1 [2]]).neurons[j]? = some nr ∧
          nr.propagate [5] = .ok (nr.output [5]) ∧ out[j]? = some (nr.output [5]) :=
  claim_C7 (Layer.mk [Neuron.mk 0 [1], Neuron.mk 1 [2]]) [5] (by decide)

/-- C8: for every Neuron and every input vector whose length matches the
weight vector's, `Neuron.propagate` returns a value, and that value is
never negative (rectified output). -/
theorem claim_C8 (n : Neuron) (v : List ℚ) (h : v.length = n.weights.length) :
    ∃ r, n.propagate v = .ok r ∧ 0 ≤ r := by
  refine ⟨n.output v, by rw [Neuron.propagate, if_pos h], ?_⟩
  rw [Neuron.output]
  exact le_max_right _ 0

theorem claim_C8_witness :
    ∃ r, (Neuron.mk (-5) [1]).propagate [2] = .ok r ∧ 0 ≤ r :=
  claim_C8 (Neuron.mk (-5) [1]) [2] rfl

/-- C9: `GeneticAlgorithm.evolve` never returns a value: the empty
population fails the non-emptiness assertion, and every non-empty
population hits the unimplemented stub before producing any element. -/
theorem claim_C9 {α : Type} (g : GeneticAlgorithm) :
    g.evolve ([] : List α) = .error .assertionFailed ∧
    ∀ population : List α, population ≠ [] →
      g.evolve population = .error .todoUnimplemented := by
  constructor
  · rfl
  · intro population hpop
    rw [GeneticAlgorithm.evolve, if_neg (fun hc => hpop (List.isEmpty_iff.mp hc))]
    apply mapM_const_error
    simpa [List.range_eq_nil, List.length_eq_zero] using hpop

theorem claim_C9_witness :
    GeneticAlgorithm.evolve ⟨⟩ ([] : List Nat) = .error .assertionFailed ∧
    GeneticAlgorithm.evolve ⟨⟩ [0] = .error .todoUnimplemented :=
  ⟨(claim_C9 ⟨⟩).1, (claim_C9 ⟨⟩).2 [0] (by decide)⟩

/-- C10: a Network with an empty layers sequence propagates any input
unchanged (the fold over zero layers is the identity), and
`Network.random` never produces such a Network: on any topology of
length at least 2 it returns a Network with a non-empty layers list. -/
theorem claim_C10 :
    (∀ v : List ℚ, Network.propagate ⟨[]⟩ v = .ok v) ∧
    ∀ (rng : RngState) (t : List LayerTopology), 2 ≤ t.length →
      ∃ net rng', Network.random rng t = .ok (net, rng') ∧ net.layers ≠ [] := by
  constructor
  · intro v
    rfl
  · intro rng t ht
    rw [Network.random, if_pos (by omega)]
    refine ⟨_, _, rfl, ?_⟩
    intro hnil
    have h0 : (buildLayers rng t).1.length = 0 := by
      rw [show (buildLayers rng t).1 = [] from hnil]
      rfl
    rw [buildLayers_length] at h0
    omega

theorem claim_C10_witness :
    Network.propagate ⟨[]⟩ [(5 : ℚ)] = .ok [(5 : ℚ)] ∧
    ∃ net rng', Network.random ⟨fun _ => 1, 0⟩ [⟨1⟩, ⟨1⟩] = .ok (net, rng') ∧
      net.layers ≠ [] :=
  ⟨claim_C10.1 [5], claim_C10.2 ⟨fun _ => 1, 0⟩ [⟨1⟩, ⟨1⟩] (by decide)⟩

/-- C2: for every topology of length at least 2, `Network.random` returns
a Network with `length - 1` Layers, Layer `i` being
`Layer.random(rng_i, t[i].neurons, t[i+1].neurons)` where `rng_i` is the
source as advanced by fully constructing Layers `0..i-1`; each Layer `i`
has `t[i+1].neurons` Neurons of `t[i].neurons` weights each. -/
theorem claim_C2 (rng : RngState) (t : List LayerTopology) (h : 2 ≤ t.length) :
    ∃ net rng', Network.random rng t = .ok (net, rng') ∧
      net.layers.length = t.length - 1 ∧
      ∀ i a b, t[i]? = some a → t[i + 1]? = some b →
        ∃ L, net.layers[i]? = some L ∧
          L = (Layer.random ((buildLayers rng (t.take (i + 1))).2) a.neurons b.neurons).1 ∧
          L.neurons.length = b.neurons ∧
          ∀ nr ∈ L.neurons, nr.weights.length = a.neurons := by
  rw [Network.random, if_pos (by omega)]
  refine ⟨_, _, rfl, buildLayers_length t rng, ?_⟩
  intro i a b ha hb
  obtain ⟨hlen, _, _, _, hwts⟩ :=
    layerRandom_spec ((buildLayers rng (t.take (i + 1))).2) a.neurons b.neurons
  exact ⟨_, buildLayers_getElem t rng i a b ha hb, rfl, hlen, hwts⟩

theorem claim_C2_witness :
    ∃ net rng', Network.random ⟨fun _ => 1, 0⟩ [⟨3⟩, ⟨2⟩, ⟨1⟩] = .ok (net, rng') ∧
      net.layers.length = [(⟨3⟩ : LayerTopology), ⟨2⟩, ⟨1⟩].length - 1 ∧
      ∀ i a b, [(⟨3⟩ : LayerTopology), ⟨2⟩, ⟨1⟩][i]? = some a →
        [(⟨3⟩ : LayerTopology), ⟨2⟩, ⟨1⟩][i + 1]? = some b →
        ∃ L, net.layers[i]? = some L ∧
          L = (Layer.random ((buildLayers ⟨fun _ => 1, 0⟩
                ([(⟨3⟩ : LayerTopology), ⟨2⟩, ⟨1⟩].take (i + 1))).2) a.neurons b.neurons).1 ∧
          L.neurons.length = b.neurons ∧
          ∀ nr ∈ L.neurons, nr.weights.length = a.neurons :=
  claim_C2 ⟨fun _ => 1, 0⟩ [⟨3⟩, ⟨2⟩, ⟨1⟩] (by decide)

/-- C3: `Network.propagate` feeds the input into the first Layer and
threads each Layer's output into the next, in Layer order, skipping no
Layer; for `[A, B]` it equals `B.propagate(A.propagate(x))`, and for a
width-compatible Network the final output's length is the last Layer's
neuron count. -/
theorem claim_C3 :
    (∀ (L : Layer) (ls : List Layer) (v : List ℚ),
        Network.propagate ⟨L :: ls⟩ v =
          L.propagate v >>= fun v1 => Network.propagate ⟨ls⟩ v1) ∧
    (∀ (A B : Layer) (x : List ℚ),
        Network.propagate ⟨[A, B]⟩ x = A.propagate x >>= B.propagate) ∧
    ∀ (net : Network) (w : Nat) (v : List ℚ) (last : Layer),
      chainOK w net.layers = true → v.length = w → net.layers.getLast? = some last →
      ∃ out, net.propagate v = .ok out ∧ out.length = last.neurons.length := by
  refine ⟨?_, ?_, ?_⟩
  · intro L ls v
    show (L :: ls).foldlM (fun inputs layer => Layer.propagate layer inputs) v =
      L.propagate v >>= fun v1 =>
        ls.foldlM (fun inputs layer => Layer.propagate layer inputs) v1
    rw [List.foldlM_cons]
  · intro A B x
    show ([A, B].foldlM (fun inputs layer => Layer.propagate layer inputs) x) =
      A.propagate x >>= B.propagate
    simp only [List.foldlM_cons, List.foldlM_nil, bind_pure]
  · intro net w v last hchain hv hlast
    obtain ⟨out, hout, hlen⟩ := foldlM_propagate_ok_of_chain net.layers w v hchain hv
    refine ⟨out, hout, ?_⟩
    rw [hlen, outWidth_getLast net.layers w last hlast]

theorem claim_C3_witness :
    (Network.propagate ⟨[Layer.mk [Neuron.mk 0 [1]], Layer.mk [Neuron.mk 1 [2]]]⟩ [3] =
      (Layer.mk [Neuron.mk 0 [1]]).propagate [3] >>= fun v1 =>
        Network.propagate ⟨[Layer.mk [Neuron.mk 1 [2]]]⟩ v1) ∧
    (Network.propagate ⟨[Layer.mk [Neuron.mk 0 [1]], Layer.mk [Neuron.mk 1 [2]]]⟩ [3] =
      (Layer.mk [Neuron.mk 0 [1]]).propagate [3] >>=
        (Layer.mk [Neuron.mk 1 [2]]).propagate) ∧
    ∃ out, Network.propagate ⟨[Layer.mk [Neuron.mk 0 [1]], Layer.mk [Neuron.mk 1 [2]]]⟩ [3] =
      .ok out ∧ out.length = (Layer.mk [Neuron.mk 1 [2]]).neurons.length :=
  ⟨claim_C3.1 (Layer.mk [Neuron.mk 0 [1]]) [Layer.mk [Neuron.mk 1 [2]]] [3],
   claim_C3.2.1 (Layer.mk [Neuron.mk 0 [1]]) (Layer.mk [Neuron.mk 1 [2]]) [3],
   claim_C3.2.2 ⟨[Layer.mk [Neuron.mk 0 [1]], Layer.mk [Neuron.mk 1 [2]]]⟩ 1 [3]
     (Layer.mk [Neuron.mk 1 [2]]) (by decide) (by decide) (by decide)⟩

/-- C4: the neural-network core has exactly the two failure modes:
`Neuron.propagate` fails (with DimensionMismatch) iff the input length
differs from the weight length, `Network.random` fails (with
InvalidTopology) iff the topology has fewer than two entries; layer and
network propagation fail only through a contained neuron's dimension
mismatch and never with InvalidTopology, and succeed whenever all
contained neurons' widths match. -/
theorem claim_C4 :
    (∀ (n : Neuron) (v : List ℚ),
        n.propagate v = .error .dimensionMismatch ↔ v.length ≠ n.weights.length) ∧
    (∀ (n : Neuron) (v : List ℚ),
        (∃ r, n.propagate v = .ok r) ↔ v.length = n.weights.length) ∧
    (∀ (rng : RngState) (t : List LayerTopology),
        Network.random rng t = .error .invalidTopology ↔ t.length < 2) ∧
    (∀ (rng : RngState) (t : List LayerTopology),
        (∃ res, Network.random rng t = .ok res) ↔ 2 ≤ t.length) ∧
    (∀ (l : Layer) (v : List ℚ),
        (∃ out, l.propagate v = .ok out) ↔ ∀ n ∈ l.neurons, v.length = n.weights.length) ∧
    (∀ (l : Layer) (v : List ℚ), l.propagate v ≠ .error .invalidTopology) ∧
    ∀ (net : Network) (v : List ℚ), net.propagate v ≠ .error .invalidTopology := by
  refine ⟨?_, ?_, ?_, ?_, Layer.propagate_isOk_iff, Layer.propagate_ne_invalidTopology,
    fun net v => foldlM_propagate_ne_invalidTopology net.layers v⟩
  · intro n v
    rw [Neuron.propagate]
    by_cases h : v.length = n.weights.length
    · rw [if_pos h]
      simp [h]
    · rw [if_neg h]
      simp [h]
  · intro n v
    rw [Neuron.propagate]
    by_cases h : v.length = n.weights.length
    · rw [if_pos h]
      simp [h]
    · rw [if_neg h]
      simp [h]
  · intro rng t
    constructor
    · intro heq
      by_contra hlen
      rw [Network.random, if_pos (by omega)] at heq
      exact Except.noConfusion heq
    · intro hlen
      rw [Network.random, if_neg (by omega)]
  · intro rng t
    constructor
    · rintro ⟨res, hres⟩
      by_contra hlen
      rw [Network.random, if_neg (by omega)] at hres
      exact Except.noConfusion hres
    · intro hlen
      rw [Network.random, if_pos (by omega)]
      exact ⟨_, rfl⟩

theorem claim_C4_witness :
    (Neuron.mk 0 []).propagate [1] = .error .dimensionMismatch ∧
    Network.random ⟨fun _ => 1, 0⟩ [⟨1⟩] = .error .invalidTopology ∧
    ∃ r, (Neuron.mk 0 [1]).propagate [2] = .ok r := by
  obtain ⟨h1, h2, h3, _⟩ := claim_C4
  exact ⟨(h1 _ _).mpr (by decide), (h3 _ _).mpr (by decide), (h2 _ _).mpr (by decide)⟩

/-- C5: `Neuron.random` draws the bias first (one sample mapped onto
[-1, 1]), then exactly `input_size` weight samples in index order,
consuming exactly `1 + input_size` draws and never resetting the source;
when the unit stream lies in [0, 1] every drawn value lies in [-1, 1]
inclusive; `Layer.random` builds its neurons strictly left-to-right with
the source advanced by `1 + input_size` per neuron; and replaying
`Network.random` with an identically-seeded source reproduces identical
values. -/
theorem claim_C5 (rng : RngState) (input_size : Nat) :
    (Neuron.random rng input_size).1.bias = -1 + rng.stream rng.consumed * 2 ∧
    (Neuron.random rng input_size).1.weights.length = input_size ∧
    (∀ j, j < input_size → (Neuron.random rng input_size).1.weights[j]? =
      some (-1 + rng.stream (rng.consumed + 1 + j) * 2)) ∧
    (Neuron.random rng input_size).2.stream = rng.stream ∧
    (Neuron.random rng input_size).2.consumed = rng.consumed + (1 + input_size) ∧
    ((∀ i, 0 ≤ rng.stream i ∧ rng.stream i ≤ 1) →
      -1 ≤ (Neuron.random rng input_size).1.bias ∧
        (Neuron.random rng input_size).1.bias ≤ 1 ∧
        ∀ w ∈ (Neuron.random rng input_size).1.weights, -1 ≤ w ∧ w ≤ 1) ∧
    (∀ output_neurons j, j < output_neurons →
      (Layer.random rng input_size output_neurons).1.neurons[j]? =
        some ((Neuron.random ⟨rng.stream, rng.consumed + j * (1 + input_size)⟩
          input_size).1)) ∧
    (∀ output_neurons,
      (Layer.random rng input_size output_neurons).2.stream = rng.stream ∧
      (Layer.random rng input_size output_neurons).2.consumed =
        rng.consumed + output_neurons * (1 + input_size)) ∧
    ∀ (rng2 : RngState) (t : List LayerTopology),
      rng2.stream = rng.stream → rng2.consumed = rng.consumed →
      Network.random rng2 t = Network.random rng t := by
  obtain ⟨hb, hlen, hget, hstream, hcons⟩ := neuronRandom_spec rng input_size
  refine ⟨hb, hlen, hget, hstream, hcons, ?_, ?_, ?_, ?_⟩
  · intro hr
    refine ⟨?_, ?_, ?_⟩
    · rw [hb]
      linarith [(hr rng.consumed).1]
    · rw [hb]
      linarith [(hr rng.consumed).2]
    · intro w hw
      obtain ⟨j, hj⟩ := List.mem_iff_getElem?.mp hw
      have hjlt : j < input_size := by
        obtain ⟨hlt, _⟩ := List.getElem?_eq_some.mp hj
        omega
      rw [hget j hjlt] at hj
      have hwval : w = -1 + rng.stream (rng.consumed + 1 + j) * 2 := (Option.some.inj hj).symm
      rw [hwval]
      exact ⟨by linarith [(hr (rng.consumed + 1 + j)).1],
        by linarith [(hr (rng.consumed + 1 + j)).2]⟩
  · intro output_neurons j hj
    obtain ⟨_, _, _, h4, _⟩ := layerRandom_spec rng input_size output_neurons
    exact h4 j hj
  · intro output_neurons
    obtain ⟨_, h2, h3, _, _⟩ := layerRandom_spec rng input_size output_neurons
    exact ⟨h2, h3⟩
  · intro rng2 t h1 h2
    obtain ⟨s2, c2⟩ := rng2
    obtain ⟨s, c⟩ := rng
    dsimp only at h1 h2
    rw [h1, h2]

theorem claim_C5_witness :
    (Neuron.random ⟨fun _ => 1, 0⟩ 2).1.weights[1]? = some (-1 + (1 : ℚ) * 2) ∧
    (-1 : ℚ) ≤ (Neuron.random ⟨fun _ => 1, 0⟩ 2).1.bias ∧
    (Layer.random ⟨fun _ => 1, 0⟩ 2 3).1.neurons[1]? =
      some ((Neuron.random ⟨fun _ => 1, 0 + 1 * (1 + 2)⟩ 2).1) ∧
    Network.random ⟨fun _ => 1, 0 + 0⟩ [⟨1⟩, ⟨1⟩] =
      Network.random ⟨fun _ => 1, 0⟩ [⟨1⟩, ⟨1⟩] := by
  obtain ⟨hb, hlen, hget, hs, hc, hrange, hlayer, hlstate, hreplay⟩ :=
    claim_C5 ⟨fun _ => 1, 0⟩ 2
  refine ⟨hget 1 (by omega), ?_, hlayer 3 1 (by omega),
    hreplay ⟨fun _ => 1, 0 + 0⟩ [⟨1⟩, ⟨1⟩] rfl rfl⟩
  exact (hrange (by intro i; constructor <;> norm_num)).1
